import Mathlib

/-!
Shallow embedding of the `FileProcessor` module of the obsidian-erouter-486
repository (src/src/fileProcessor.ts) and proofs about the claims of its
specification.  Strings are modelled as `List Char`; JavaScript machine
integers (millisecond timestamps, counters) are modelled as `Nat`.
-/

namespace ERouter

/-- Character-list strings, the carrier for all text in the embedding. -/
abbrev Str := List Char

/-- Does `pat` occur as a contiguous substring of `s`?  Embeds the behaviour
of an (unanchored) JavaScript `RegExp(pat).test(s)` for patterns that contain
no regex metacharacters, and of `String.prototype.includes`. -/
def subOccurs : Str → Str → Bool
  | pat, [] => pat.isEmpty
  | pat, c :: tl => pat.isPrefixOf (c :: tl) || subOccurs pat tl

/-- Global, left-to-right, non-overlapping replacement of the literal pattern
`pat` by `rep`, the behaviour of JavaScript `s.replace(/pat/g, rep)` for a
metacharacter-free pattern and a replacement without `$`-escapes (every
replacement string passed by the source is of that form).  Replaced text is
not rescanned.  Structured with an explicit fuel argument so that it reduces
by kernel computation. -/
def replaceAllF (pat rep : Str) : Nat → Str → Str
  | _, [] => []
  | 0, s => s
  | fuel + 1, c :: tl =>
    if pat.isPrefixOf (c :: tl) && !pat.isEmpty then
      rep ++ replaceAllF pat rep fuel ((c :: tl).drop pat.length)
    else
      c :: replaceAllF pat rep fuel tl

/-- Global literal replacement with adequate fuel. -/
def replaceAll (pat rep s : Str) : Str :=
  replaceAllF pat rep s.length s

/-- JavaScript `String.prototype.trim`: strip whitespace from both ends. -/
def strTrim (s : Str) : Str :=
  ((s.dropWhile Char.isWhitespace).reverse.dropWhile Char.isWhitespace).reverse

/-- Lower-case every character, JavaScript `toLowerCase` restricted to the
one-to-one character mapping. -/
def toLowerStr (s : Str) : Str := s.map Char.toLower

/-- Tokens of the regular-expression fragment produced by
`matchesFileNameTemplate`: literal characters, the `.` wildcard, and the
`.*` gap produced by substituting each template `*`. -/
inductive RTok where
  | lit (c : Char)
  | dot
  | dotStar
deriving DecidableEq, Repr

/-- Compile a filename template, mirroring
`new RegExp("^" + template.replace(/\*/g, ".*") + "$")` of the source for
templates whose characters are regex-neutral apart from `.` and `*`: each
`*` becomes a `.*` gap, each `.` is the regex any-character metacharacter
(the source does not escape it), every other character is literal. -/
def compileTemplate : Str → List RTok
  | [] => []
  | c :: tl =>
    if c = '*' then RTok.dotStar :: compileTemplate tl
    else if c = '.' then RTok.dot :: compileTemplate tl
    else RTok.lit c :: compileTemplate tl

/-- Anchored matching of a compiled token list against a string, with fuel so
that it reduces by kernel computation. -/
def rmatchF : Nat → List RTok → Str → Bool
  | 0, _, _ => false
  | _ + 1, [], [] => true
  | _ + 1, [], _ :: _ => false
  | _ + 1, RTok.lit _ :: _, [] => false
  | fuel + 1, RTok.lit c :: ts, x :: xs => x == c && rmatchF fuel ts xs
  | _ + 1, RTok.dot :: _, [] => false
  | fuel + 1, RTok.dot :: ts, _ :: xs => rmatchF fuel ts xs
  | fuel + 1, RTok.dotStar :: ts, [] => rmatchF fuel ts []
  | fuel + 1, RTok.dotStar :: ts, x :: xs =>
    rmatchF fuel ts (x :: xs) || rmatchF fuel (RTok.dotStar :: ts) xs

/-- Anchored match with adequate fuel. -/
def rmatch (ts : List RTok) (s : Str) : Bool :=
  rmatchF (ts.length + s.length + 1) ts s

/-- Embeds `matchesFileNameTemplate` of src/src/fileProcessor.ts lines
166-169: the template is compiled to an anchored regular expression by
replacing every `*` with `.*` and escaping nothing else, then tested against
the file name. -/
def matchesFileNameTemplate (fileName template : Str) : Bool :=
  rmatch (compileTemplate template) fileName

/-- Modelled from the spec: glob semantics in which `*` matches zero or more
arbitrary characters and every other template character matches only itself.
Used solely as the comparison point for the refinement claim about
`matchesFileNameTemplate`; it is deliberately written from the
specification's words, not from the source. -/
def globMatchF : Nat → Str → Str → Bool
  | 0, _, _ => false
  | _ + 1, [], [] => true
  | _ + 1, [], _ :: _ => false
  | fuel + 1, t :: ts, [] => t = '*' && globMatchF fuel ts []
  | fuel + 1, t :: ts, x :: xs =>
    if t = '*' then globMatchF fuel ts (x :: xs) || globMatchF fuel (t :: ts) xs
    else x == t && globMatchF fuel ts xs

/-- Glob matching with adequate fuel, template first, then file name. -/
def globMatch (template fileName : Str) : Bool :=
  globMatchF (template.length + fileName.length + 1) template fileName

/-- Last path segment of a path, the `name` field of a `TFile`. -/
def baseName (path : Str) : Str :=
  (path.reverse.takeWhile (fun c => c ≠ '/')).reverse

/-- Strip the final extension from a file name, the behaviour of the source's
`originalName.replace(/\.[^/.]+$/, "")`: remove a trailing dot followed by
one or more characters none of which is a dot or a slash; leave the name
unchanged when no such suffix exists. -/
def stripExt (name : Str) : Str :=
  let rev := name.reverse
  let seg := rev.takeWhile (fun c => c ≠ '.' && c ≠ '/')
  match rev.drop seg.length with
  | '.' :: tl => if seg.isEmpty then name else tl.reverse
  | _ => name

/-- Final extension of a file name, the behaviour of the source's
`originalName.split('.').pop() || ''`: the characters after the last dot, or
the whole name when it contains no dot. -/
def lastExt (name : Str) : Str :=
  (name.reverse.takeWhile (fun c => c ≠ '.')).reverse

/-- The literal template token `{{filename}}`. -/
def tokFilename : Str := "\x7b\x7bfilename\x7d\x7d".data

/-- The literal template token `{{date}}`. -/
def tokDate : Str := "\x7b\x7bdate\x7d\x7d".data

/-- The literal template token `{{time}}`. -/
def tokTime : Str := "\x7b\x7btime\x7d\x7d".data

/-- The literal template token `{{extension}}`. -/
def tokExtension : Str := "\x7b\x7bextension\x7d\x7d".data

/-- Does the lower-cased string end with `.md`?  This is the source's
`outputName.toLowerCase().endsWith('.md')`. -/
def endsWithMd (s : Str) : Bool :=
  ".md".data.isSuffixOf (toLowerStr s)

/-- Append `.md` unless the lower-cased name already ends with it, the final
step of `getOutputFileName`. -/
def ensureMd (s : Str) : Str :=
  if endsWithMd s then s else s ++ ".md".data

/-- Embeds `getOutputFileName` of src/src/fileProcessor.ts lines 373-387.
The clock reading is passed explicitly: `dateStr` stands for
`date.toISOString().split('T')[0]` and `timeStr` for
`date.toTimeString().split(' ')[0].replace(/:/g, '-')`; both are
metacharacter-free strings produced by `Date`, so plain literal replacement
embeds the JavaScript `replace` calls faithfully. -/
def getOutputFileName (dateStr timeStr originalName template : Str) : Str :=
  let n1 := replaceAll tokFilename (stripExt originalName) template
  let n2 := replaceAll tokDate dateStr n1
  let n3 := replaceAll tokTime timeStr n2
  let n4 := replaceAll tokExtension (lastExt originalName) n3
  ensureMd n4

/-- Outcome of one `groq.chat.completions.create` call: either the call
returns and `content` is `choices[0]?.message?.content` (`none` when the
chain is missing or `null`), or the call rejects with an error whose
`message` is `msg`. -/
inductive LLMAttempt where
  | success (content : Option Str)
  | failure (msg : Str)
deriving DecidableEq, Repr

/-- Result of `processWithLLM`: the promise either resolves with text or
rejects with the message of a thrown error. -/
inductive LLMResult where
  | ok (text : Str)
  | thrown (msg : Str)
deriving DecidableEq, Repr

/-- One run of `processWithLLM`: its result, how many attempts were made,
and the list of backoff waits (milliseconds) inserted between attempts. -/
structure LLMRun where
  result : LLMResult
  attemptsMade : Nat
  waits : List Nat
deriving DecidableEq, Repr

/-- The source's `maxRetries`. -/
def maxRetries : Nat := 3

/-- The source's `delayBetweenRetries` (milliseconds). -/
def delayBetweenRetries : Nat := 2000

/-- JavaScript `x || d` on an optional string: `null`, missing and the empty
string are falsy and yield the default. -/
def jsOrDefault (c : Option Str) (d : Str) : Str :=
  match c with
  | none => d
  | some s => if s.isEmpty then d else s

/-- Placeholder text returned when a completion arrives with no generated
text. -/
def noResponseMsg : Str := "No response from LLM".data

/-- Result string returned when the final attempt fails, from the source's
`Error processing content after (maxRetries) attempts: (message)`. -/
def errAfterMsg (msg : Str) : Str :=
  "Error processing content after 3 attempts: ".data ++ msg

/-- The retry loop of `processWithLLM` (src/src/fileProcessor.ts lines
271-299).  `att n` is the outcome of the `n`-th call (1-based); the fuel is
`maxRetries - attempt + 1`, so fuel `0` corresponds to the unreachable fall
through after the loop and fuel `1` to the final attempt, where the source
checks `attempt === maxRetries` before everything else and returns an error
string instead of rethrowing. -/
def llmLoop (att : Nat → LLMAttempt) : Nat → Nat → LLMRun
  | _, 0 =>
    ⟨.ok "Unexpected error occurred while processing with LLM".data, 0, []⟩
  | attempt, fuel + 1 =>
    match att attempt with
    | .success c => ⟨.ok (jsOrDefault c noResponseMsg), 1, []⟩
    | .failure msg =>
      if fuel = 0 then ⟨.ok (errAfterMsg msg), 1, []⟩
      else if subOccurs "429".data msg then
        let rest := llmLoop att (attempt + 1) fuel
        ⟨rest.result, rest.attemptsMade + 1, delayBetweenRetries :: rest.waits⟩
      else ⟨.thrown msg, 1, []⟩

/-- Embeds `processWithLLM`: run the retry loop from attempt 1 with
`maxRetries` attempts available.  The prompt's `[[path]]` link resolution
happens before the loop and does not influence retry behaviour, so it is
not part of this model. -/
def processWithLLM (att : Nat → LLMAttempt) : LLMRun :=
  llmLoop att 1 maxRetries

/-- A queued completion request, the `content` and `prompt` of a
`QueueItem`; its `resolve`/`reject` callbacks are represented by the
position of the request in the drain's output. -/
structure QReq where
  content : Str
  prompt : Str
deriving DecidableEq, Repr

/-- The source's `REQUEST_INTERVAL` (milliseconds). -/
def REQUEST_INTERVAL : Nat := 15000

/-- One dispatch performed by the queue worker: the request, the time at
which `processWithLLM` was invoked for it, the time its settlement was
observed (`Date.now()` written into `lastRequestTime`), and the text or
error it settled with. -/
structure Dispatch where
  req : QReq
  time : Nat
  finished : Nat
  res : LLMResult
deriving DecidableEq, Repr

/-- Time at which the next request is dispatched: the source waits out the
remainder of `REQUEST_INTERVAL` since `lastT` when the interval has not yet
elapsed, and dispatches immediately otherwise. -/
def nextDispatchTime (nowT lastT : Nat) : Nat :=
  if nowT < lastT + REQUEST_INTERVAL then lastT + REQUEST_INTERVAL else nowT

/-- The drain loop of `processQueue` (src/src/fileProcessor.ts lines
234-255) under a logical clock.  `outcome n` is the settlement of the `n`-th
dispatched request and `dur n` the non-negative time it took; `nowT` is the
current time and `lastT` the stored `lastRequestTime`.  Each iteration waits
until `nextDispatchTime`, pops the head of the queue, dispatches it, and
records the settlement time as the new `lastRequestTime`. -/
def drainQueue (outcome : Nat → LLMResult) (dur : Nat → Nat) :
    Nat → Nat → Nat → List QReq → List Dispatch
  | _, _, _, [] => []
  | i, nowT, lastT, r :: rs =>
    let dispatch := nextDispatchTime nowT lastT
    let fin := dispatch + dur i
    ⟨r, dispatch, fin, outcome i⟩ :: drainQueue outcome dur (i + 1) fin fin rs

/-- State of the request queue between events. -/
structure QState where
  queue : List QReq
  isProcessingQueue : Bool
  lastRequestTime : Nat
deriving DecidableEq, Repr

/-- Embeds `processQueue` entry (src/src/fileProcessor.ts lines 227-258): a
call returns immediately when a worker loop is already active or the queue
is empty; otherwise the single worker drains the whole queue and clears the
`isProcessingQueue` flag. -/
def processQueue (outcome : Nat → LLMResult) (dur : Nat → Nat) (nowT : Nat)
    (s : QState) : QState × List Dispatch :=
  if s.isProcessingQueue || s.queue.isEmpty then (s, [])
  else
    let ds := drainQueue outcome dur 0 nowT s.lastRequestTime s.queue
    (⟨[], false, (ds.getLast?).elim s.lastRequestTime Dispatch.finished⟩, ds)

/-- Embeds `queueLLMRequest` (src/src/fileProcessor.ts lines 220-225): push
the request at the back of the queue, then start the worker. -/
def queueLLMRequest (outcome : Nat → LLMResult) (dur : Nat → Nat) (nowT : Nat)
    (req : QReq) (s : QState) : QState × List Dispatch :=
  processQueue outcome dur nowT { s with queue := s.queue ++ [req] }

/-- The `outputFileHandling` enumeration of a `MonitoringRule`. -/
inductive OutHandling where
  | overwrite
  | append
  | rename
deriving DecidableEq, Repr

/-- A `MonitoringRule` from src/types.ts, restricted to the fields the
`FileProcessor` reads. -/
structure Rule where
  name : Str
  enabled : Bool
  folders : List Str
  delay : Nat
  fileNameTemplate : Str
  contentRegex : Str
  prompt : Str
  templateFile : Str
  outputFileNameTemplate : Str
  outputFileHandling : OutHandling
  deleteSourceFile : Bool
deriving DecidableEq, Repr

/-- A file of the vault: its full path, its content, and the
last-modification time the file store reports for it. -/
structure FileRec where
  path : Str
  content : Str
  mtime : Nat
deriving DecidableEq, Repr

/-- The file store: a flat list of files. -/
abbrev Vault := List FileRec

/-- Content of the file at `p`, `none` when no such file exists; this is
`getAbstractFileByPath` / `adapter.exists` / `vault.read` in one lookup. -/
def vaultGet (v : Vault) (p : Str) : Option Str :=
  (v.find? (fun f => f.path == p)).map FileRec.content

/-- Read with JavaScript's undefined-collapse: absent files read as empty. -/
def vaultRead (v : Vault) (p : Str) : Str :=
  (vaultGet v p).getD []

/-- The effect of `vault.create(p, c)`: append a fresh file record. -/
def vaultCreate (v : Vault) (p c : Str) (now : Nat) : Vault :=
  v ++ [⟨p, c, now⟩]

/-- The effect of `vault.modify(p, c)`: replace the content (and bump the
modification time) of every record at path `p`. -/
def vaultModify (v : Vault) (p c : Str) (now : Nat) : Vault :=
  v.map (fun f => if f.path == p then ⟨p, c, now⟩ else f)

/-- The effect of `vault.delete(p)`: drop the record at path `p`. -/
def vaultDelete (v : Vault) (p : Str) : Vault :=
  v.filter (fun f => f.path != p)

/-- A fixed clock reading for one pipeline run: `now` is `Date.now()` in
milliseconds, the string fields are the formatted readings used by
`getOutputFileName` and `logOperation`. -/
structure Clock where
  now : Nat
  dateStr : Str
  timeStr : Str
  friendly : Str
deriving DecidableEq, Repr

/-- Oracle fixing the outcome of every fallible external operation of one
`processFile` run, so that all success and failure exit paths are covered by
quantifying over it.  `llmOk`/`llmVal`/`llmErr` describe how the
`queueLLMRequest` promise settles. -/
structure Oracle where
  preReadOk : Bool
  readOk : Bool
  llmOk : Bool
  llmVal : Str
  llmErr : Str
  saveOk : Bool
  tmplReadOk : Bool
  tmplModifyOk : Bool
  logOk : Bool
  delOk : Bool
deriving DecidableEq, Repr

/-- The oracle in which every external operation succeeds. -/
def Oracle.allOk (llmVal : Str) : Oracle :=
  ⟨true, true, true, llmVal, [], true, true, true, true, true⟩

/-- Externally visible operations a pipeline run performs against the file
store, the completion service and the log resource. -/
inductive Eff where
  | readF (p : Str)
  | existsQ (p : Str)
  | llmCall (content prompt : Str)
  | createF (p c : Str)
  | modifyF (p c : Str)
  | deleteF (p : Str)
  | logAppend (entry : Str)
deriving DecidableEq, Repr

/-- Message used for a generic rejected file-store operation. -/
def ioErrMsg : Str := "I/O error".data

/-- Render one log line, from `logOperation` (src/src/fileProcessor.ts lines
389-408); the arrow is rendered ASCII. -/
def logEntry (friendlyTime op path outName ruleName outTpl prompt : Str) :
    Str :=
  "- ".data ++ friendlyTime ++ " ".data ++ op ++ ": [[".data ++ path ++
    "]] -> [[".data ++ outName ++ "]]\n  Rule: ".data ++ ruleName ++
    "\n  Output Template: ".data ++ outTpl ++ "\n  Prompt: ".data ++ prompt ++
    "\n\n".data

/-- Embeds `logOperation`: an entry is produced only when an
`outputFileName` argument was passed; the call for the `delete` operation
passes none, so it yields nothing to append. -/
def logOperation (clk : Clock) (rule : Rule) (op path : Str)
    (outputFileName : Option Str) : Option Str :=
  match outputFileName with
  | some o =>
    some (logEntry clk.friendly op path o rule.name
      rule.outputFileNameTemplate rule.prompt)
  | none => none

/-- Decimal digit character. -/
def digitChar (d : Nat) : Char := Char.ofNat (48 + d)

/-- Fuelled decimal rendering of a natural number, most significant digit
first. -/
def natToStrF : Nat → Nat → Str
  | 0, _ => []
  | fuel + 1, n =>
    if n < 10 then [digitChar n]
    else natToStrF fuel (n / 10) ++ [digitChar (n % 10)]

/-- Decimal rendering of a natural number, the JavaScript template
interpolation of `counter`. -/
def natToStr (n : Nat) : Str := natToStrF (n + 1) n

/-- The candidate name tried with counter `k`, the source's
interpolation of `(outputFileName)_(counter)`. -/
def mkIndexedName (base : Str) (k : Nat) : Str :=
  base ++ "_".data ++ natToStr k

/-- The `while` loop of the `rename` branch of `saveProcessedContent`
(src/src/fileProcessor.ts lines 350-355): while a file exists at the current
candidate, move to the next numbered candidate.  Fuelled; the caller passes
fuel exceeding the number of occupied candidates, which the correctness
lemmas justify. -/
def renameLoop (v : Vault) (base : Str) : Nat → Nat → Str → Str
  | _, 0, cur => cur
  | counter, fuel + 1, cur =>
    if (vaultGet v cur).isSome then
      renameLoop v base (counter + 1) fuel (mkIndexedName base counter)
    else cur

/-- The output path `saveProcessedContent` renders from the source file's
name and the rule's output template. -/
def renderedOutName (clk : Clock) (rule : Rule) (fileName : Str) : Str :=
  getOutputFileName clk.dateStr clk.timeStr fileName
    rule.outputFileNameTemplate

/-- Embeds `saveProcessedContent` (src/src/fileProcessor.ts lines 331-371).
Returns the output path actually used (or `none` when the write failed and
the surrounding `catch` turned it into a `null`), the resulting vault, and
the operations attempted.  `fileName` is the source file's `name` field. -/
def saveProcessedContent (o : Oracle) (clk : Clock) (rule : Rule) (v : Vault)
    (fileName content : Str) : Option Str × Vault × List Eff :=
  let outName := renderedOutName clk rule fileName
  match vaultGet v outName with
  | some existing =>
    match rule.outputFileHandling with
    | .overwrite =>
      if o.saveOk then
        (some outName, vaultModify v outName content clk.now,
          [Eff.modifyF outName content])
      else (none, v, [Eff.modifyF outName content])
    | .append =>
      let newC := existing ++ '\n' :: content
      if o.saveOk then
        (some outName, vaultModify v outName newC clk.now,
          [Eff.readF outName, Eff.modifyF outName newC])
      else (none, v, [Eff.readF outName, Eff.modifyF outName newC])
    | .rename =>
      let newName := renameLoop v outName 1 (v.length + 2) outName
      if o.saveOk then
        (some newName, vaultCreate v newName content clk.now,
          [Eff.createF newName content])
      else (none, v, [Eff.createF newName content])
  | none =>
    if o.saveOk then
      (some outName, vaultCreate v outName content clk.now,
        [Eff.createF outName content])
    else (none, v, [Eff.createF outName content])

/-- JavaScript `Map.set`: replace the value under an existing key, append a
fresh binding otherwise. -/
def lpSet (lp : List (Str × Nat)) (k : Str) (t : Nat) : List (Str × Nat) :=
  if lp.any (fun e => e.1 == k) then
    lp.map (fun e => if e.1 == k then (k, t) else e)
  else lp ++ [(k, t)]

/-- JavaScript `Map.get` on the last-processed map. -/
def lpGet (lp : List (Str × Nat)) (k : Str) : Option Nat :=
  (lp.find? (fun e => e.1 == k)).map Prod.snd

/-- Mutable state of the `FileProcessor` that one `processFile` run can
touch: the vault, the in-flight set `processingFiles`, the
`lastProcessedTimes` map, and the content of the log resource (the file at
`settings.logFilePath`, modelled as a dedicated field). -/
structure PState where
  vault : Vault
  processing : List Str
  lastProcessed : List (Str × Nat)
  log : Str
deriving DecidableEq, Repr

/-- How a `processFile` promise settles: fulfilled, or rejected with an
error message. -/
inductive PResult where
  | ok
  | err (msg : Str)
deriving DecidableEq, Repr

/-- Output of the `try` block of `processFile` (src/src/fileProcessor.ts
lines 89-160).  The block never touches `processingFiles`, so that field is
absent here. -/
structure BodyOut where
  result : PResult
  vault : Vault
  lastProcessed : List (Str × Nat)
  log : Str
  effects : List Eff
deriving DecidableEq, Repr

/-- The `try` block of `processFile`: existence check, read, queued
completion, save, optional template application (the optional Templater
plugin is modelled as absent, so the source falls back to
`manualTemplateApplication`, whose own failure is caught internally), log
append, `lastProcessedTimes` update, and optional source deletion whose
failure is caught and non-fatal. -/
def processFileBody (o : Oracle) (clk : Clock) (rule : Rule) (path : Str)
    (v : Vault) (lp : List (Str × Nat)) (log : Str) : BodyOut :=
  if (vaultGet v path).isNone then
    ⟨.ok, v, lp, log, [Eff.existsQ path]⟩
  else if !o.readOk then
    ⟨.err ioErrMsg, v, lp, log, [Eff.existsQ path, Eff.readF path]⟩
  else
    let content := vaultRead v path
    let effs0 :=
      [Eff.existsQ path, Eff.readF path, Eff.llmCall content rule.prompt]
    if !o.llmOk then ⟨.err o.llmErr, v, lp, log, effs0⟩
    else
      let processed := o.llmVal
      let sv := saveProcessedContent o clk rule v (baseName path) processed
      match sv with
      | (none, v1, savEffs) => ⟨.ok, v1, lp, log, effs0 ++ savEffs⟩
      | (some outName, v1, savEffs) =>
        let tmplQueryEffs :=
          if rule.templateFile.isEmpty then [] else [Eff.existsQ rule.templateFile]
        let tmplActive :=
          !rule.templateFile.isEmpty && (vaultGet v1 rule.templateFile).isSome
        if tmplActive && !o.tmplReadOk then
          ⟨.err ioErrMsg, v1, lp, log,
            effs0 ++ savEffs ++ tmplQueryEffs ++ [Eff.readF rule.templateFile]⟩
        else
          let tstage :=
            if tmplActive then
              let tc := vaultRead v1 rule.templateFile
              let combined := tc ++ '\n' :: processed
              if (vaultGet v1 outName).isSome then
                (if o.tmplModifyOk then vaultModify v1 outName combined clk.now
                 else v1,
                 tmplQueryEffs ++
                   [Eff.readF rule.templateFile, Eff.modifyF outName combined])
              else (v1, tmplQueryEffs ++ [Eff.readF rule.templateFile])
            else (v1, tmplQueryEffs)
          let v2 := tstage.1
          let effs1 := effs0 ++ savEffs ++ tstage.2
          match logOperation clk rule "process".data path (some outName) with
          | none => ⟨.ok, v2, lp, log, effs1⟩
          | some entry =>
            if !o.logOk then
              ⟨.err ioErrMsg, v2, lp, log, effs1 ++ [Eff.logAppend entry]⟩
            else
              let log1 := log ++ entry
              let lp1 := lpSet lp path clk.now
              let effs2 := effs1 ++ [Eff.logAppend entry]
              if rule.deleteSourceFile then
                if (vaultGet v2 path).isSome then
                  if o.delOk then
                    match logOperation clk rule "delete".data path none with
                    | some e2 =>
                      ⟨.ok, vaultDelete v2 path, lp1, log1 ++ e2,
                        effs2 ++
                          [Eff.existsQ path, Eff.deleteF path, Eff.logAppend e2]⟩
                    | none =>
                      ⟨.ok, vaultDelete v2 path, lp1, log1,
                        effs2 ++ [Eff.existsQ path, Eff.deleteF path]⟩
                  else
                    ⟨.ok, v2, lp1, log1,
                      effs2 ++ [Eff.existsQ path, Eff.deleteF path]⟩
                else ⟨.ok, v2, lp1, log1, effs2 ++ [Eff.existsQ path]⟩
              else ⟨.ok, v2, lp1, log1, effs2⟩

/-- One complete `processFile` run: settlement, final state, effect trace. -/
structure PRun where
  result : PResult
  state : PState
  effects : List Eff
deriving DecidableEq, Repr

/-- Embeds `processFile` (src/src/fileProcessor.ts lines 61-164): filename
template guard, optional content-regex pre-filter (which reads the file
before the in-flight check), the `processingFiles` guard and insertion, the
`try` body, and the `finally` that always erases the path from
`processingFiles`. -/
def processFile (o : Oracle) (clk : Clock) (rule : Rule) (path : Str)
    (s : PState) : PRun :=
  if !matchesFileNameTemplate (baseName path) rule.fileNameTemplate then
    ⟨.ok, s, []⟩
  else
    let hasRegex := !(strTrim rule.contentRegex).isEmpty
    if hasRegex && !o.preReadOk then ⟨.err ioErrMsg, s, [Eff.readF path]⟩
    else if hasRegex && !(subOccurs rule.contentRegex (vaultRead s.vault path))
    then ⟨.ok, s, [Eff.readF path]⟩
    else
      let preEffs : List Eff := if hasRegex then [Eff.readF path] else []
      if s.processing.contains path then ⟨.ok, s, preEffs⟩
      else
        let added := s.processing ++ [path]
        let b := processFileBody o clk rule path s.vault s.lastProcessed s.log
        ⟨b.result, ⟨b.vault, added.erase path, b.lastProcessed, b.log⟩,
          preEffs ++ b.effects⟩

/-- Embeds `checkFolder` (src/src/fileProcessor.ts lines 193-204): list the
files under the folder prefix (a snapshot taken before the loop), and for
every file whose name matches the rule's template invoke `processFile`.  No
modification time and no `lastProcessedTimes` entry is consulted. -/
def checkFolder (o : Oracle) (clk : Clock) (rule : Rule) (folder : Str)
    (s : PState) : PState × List Eff :=
  let files := s.vault.filter (fun f => folder.isPrefixOf f.path)
  files.foldl
    (fun acc f =>
      if matchesFileNameTemplate (baseName f.path) rule.fileNameTemplate then
        let r := processFile o clk rule f.path acc.1
        (r.state, acc.2 ++ r.effects)
      else acc)
    (s, [])

/-- Fixture clock for the concrete instantiations. -/
def fixClk : Clock :=
  ⟨1000, "2024-01-01".data, "12-00-00".data, "01/01/2024, 12:00:00".data⟩

/-- Fixture rule: matches every file name, no content filter, overwrite
output handling, source deletion enabled. -/
def fixRule : Rule :=
  ⟨"r".data, true, ["watch/".data], 10, "*".data, [], "p".data, [],
    "out".data, .overwrite, true⟩

/-- Fixture state: one watched file, nothing in flight, empty log. -/
def fixState : PState :=
  ⟨[⟨"watch/a.md".data, "hello".data, 100⟩], [], [], []⟩

/-- Fixture state for the folder poller: the watched file was last modified
at time 100 and last processed at time 200. -/
def c6State : PState :=
  ⟨[⟨"watch/a.md".data, "hello".data, 100⟩], [], [("watch/a.md".data, 200)],
    []⟩

/-- Fixture rule with a non-empty content regex (the plain pattern `x`). -/
def c10Rule : Rule :=
  ⟨"regex rule".data, true, ["watch/".data], 10, "*".data, "x".data,
    "p2".data, [], "out2".data, .overwrite, false⟩

/-- Fixture state in which the watched file is already in flight (under
some other rule) and its content matches `c10Rule`'s content regex. -/
def c10State : PState :=
  ⟨[⟨"watch/a.md".data, "x marks".data, 100⟩], ["watch/a.md".data], [], []⟩

/-- Attempt oracle: rate-limited twice, then a non-rate-limit failure on
the final attempt. -/
def attC4 : Nat → LLMAttempt := fun n =>
  if n = 1 then .failure "HTTP 429 rate limit".data
  else if n = 2 then .failure "again 429".data
  else .failure "boom".data

/-- Attempt oracle: every attempt fails with a non-rate-limit error. -/
def attBoom : Nat → LLMAttempt := fun _ => .failure "boom".data

/-- Default dispatch record used for positional access into drain output. -/
def dfltDispatch : Dispatch := ⟨⟨[], []⟩, 0, 0, .ok []⟩

/-- Fixture request list for the queue instantiation. -/
def fixReqs : List QReq :=
  [⟨"c1".data, "p1".data⟩, ⟨"c2".data, "p2".data⟩, ⟨"c3".data, "p3".data⟩]

/-- Numeric value of a decimal digit character. -/
def digitVal (c : Char) : Nat := c.toNat - 48

/-- Value of a decimal string, most significant digit first. -/
def strVal (s : Str) : Nat := s.foldl (fun a c => a * 10 + digitVal c) 0

/-- Fixture rule for the `rename` output handling. -/
def c7Rule : Rule :=
  ⟨"rn".data, true, ["watch/".data], 10, "*".data, [], "p".data, [],
    "out".data, .rename, false⟩

/-- Fixture vault in which both the rendered output name and its first
numbered variant are taken. -/
def c7Vault : Vault :=
  [⟨"out.md".data, "old".data, 0⟩, ⟨"out.md_1".data, "first".data, 0⟩]

section Theorems

/-- Erasing a freshly appended element recovers the original list. -/
theorem erase_append_singleton (l : List Str) (a : Str) (h : a ∉ l) :
    (l ++ [a]).erase a = l := by
  rw [List.erase_append_right _ h, List.erase_cons_head, List.append_nil]

/-- C1: the claim states that `matchesFileNameTemplate` implements glob
semantics, with every non-`*` template character matching only itself; the
source compiles the template to a regex without escaping, so the template
character `.` matches any character: file name `axb` matches template
`a.b`, while glob semantics rejects it. -/
theorem c1_unescaped_metachar_bug :
    matchesFileNameTemplate "axb".data "a.b".data = true ∧
    globMatch "a.b".data "axb".data = false := by decide

/-- A run for a path already in the in-flight set leaves the whole state
unchanged. -/
theorem processFile_state_of_mem (o : Oracle) (clk : Clock) (rule : Rule)
    (path : Str) (s : PState) (h : path ∈ s.processing) :
    (processFile o clk rule path s).state = s := by
  simp only [processFile]
  repeat' split
  all_goals first | rfl | simp_all

/-- A run for a path not currently in flight restores the in-flight set on
every exit path. -/
theorem processFile_processing_of_not_mem (o : Oracle) (clk : Clock)
    (rule : Rule) (path : Str) (s : PState) (h : path ∉ s.processing) :
    (processFile o clk rule path s).state.processing = s.processing := by
  simp only [processFile]
  repeat' split
  all_goals try rfl
  all_goals
    (show (s.processing ++ [path]).erase path = s.processing
     exact erase_append_singleton _ _ h)

/-- C2: a `processFile` run leaves `processingFiles` exactly as it found it
on every exit path, success or failure (the oracle ranges over all of
them); and an invocation for a path already in the in-flight set leaves the
whole state untouched. -/
theorem c2_in_flight_set_safety (o : Oracle) (clk : Clock) (rule : Rule)
    (path : Str) (s : PState) :
    (processFile o clk rule path s).state.processing = s.processing ∧
    (path ∈ s.processing → (processFile o clk rule path s).state = s) := by
  constructor
  · by_cases hmem : path ∈ s.processing
    · rw [processFile_state_of_mem o clk rule path s hmem]
    · exact processFile_processing_of_not_mem o clk rule path s hmem
  · intro hmem
    exact processFile_state_of_mem o clk rule path s hmem

/-- Concrete instantiation of the in-flight part of the C2 theorem. -/
theorem c2_witness :
    "watch/a.md".data ∈
        (⟨[⟨"watch/a.md".data, "hello".data, 100⟩],
          ["watch/a.md".data], [], []⟩ : PState).processing ∧
      (processFile (Oracle.allOk "HELLO".data)
          ⟨1000, "2024-01-01".data, "12-00-00".data, "t".data⟩
          ⟨"r".data, true, ["watch/".data], 10, "*".data, [], "p".data, [],
            "out".data, .overwrite, true⟩
          "watch/a.md".data
          ⟨[⟨"watch/a.md".data, "hello".data, 100⟩],
            ["watch/a.md".data], [], []⟩).state =
        ⟨[⟨"watch/a.md".data, "hello".data, 100⟩],
          ["watch/a.md".data], [], []⟩ :=
  ⟨by decide,
    (c2_in_flight_set_safety _ _ _ _ _).2 (by decide)⟩

/-- The drain emits exactly the queued requests, in enqueue order. -/
theorem drainQueue_map_req (outcome : Nat → LLMResult) (dur : Nat → Nat) :
    ∀ (reqs : List QReq) (i nowT lastT : Nat),
      (drainQueue outcome dur i nowT lastT reqs).map Dispatch.req = reqs := by
  intro reqs
  induction reqs with
  | nil => intro i nowT lastT; rfl
  | cons r rs ih => intro i nowT lastT; simp [drainQueue, ih]

/-- The `n`-th dispatch settles with the `n`-th outcome, counted from the
starting index. -/
theorem drainQueue_res (outcome : Nat → LLMResult) (dur : Nat → Nat) :
    ∀ (reqs : List QReq) (i nowT lastT n : Nat), n < reqs.length →
      ((drainQueue outcome dur i nowT lastT reqs).getD n dfltDispatch).res =
        outcome (i + n) := by
  intro reqs
  induction reqs with
  | nil => intro i nowT lastT n hn; simp at hn
  | cons r rs ih =>
    intro i nowT lastT n hn
    cases n with
    | zero => simp [drainQueue]
    | succ m =>
      have hm : m < rs.length := by simpa using hn
      have := ih (i + 1) (nextDispatchTime nowT lastT + dur i)
        (nextDispatchTime nowT lastT + dur i) m hm
      simpa [drainQueue, Nat.add_assoc, Nat.add_comm, Nat.add_left_comm]
        using this

/-- The dispatch wait never lets a dispatch happen less than a full
interval after the recorded last settlement. -/
theorem nextDispatchTime_ge_last (nowT lastT : Nat) :
    lastT + REQUEST_INTERVAL ≤ nextDispatchTime nowT lastT := by
  unfold nextDispatchTime
  split <;> omega

/-- Consecutive dispatches of the drain are spaced by at least the full
interval: the `n`-th dispatch happens no earlier than `n` intervals after
the first one. -/
theorem drainQueue_paced (outcome : Nat → LLMResult) (dur : Nat → Nat) :
    ∀ (reqs : List QReq) (i nowT lastT n : Nat), n < reqs.length →
      ((drainQueue outcome dur i nowT lastT reqs).getD 0 dfltDispatch).time +
          n * REQUEST_INTERVAL ≤
        ((drainQueue outcome dur i nowT lastT reqs).getD n
            dfltDispatch).time := by
  intro reqs
  induction reqs with
  | nil => intro i nowT lastT n hn; simp at hn
  | cons r rs ih =>
    intro i nowT lastT n hn
    cases n with
    | zero => simp
    | succ m =>
      have hm : m < rs.length := by simpa using hn
      cases rs with
      | nil => simp at hm
      | cons r2 rs2 =>
        have ihm := ih (i + 1) (nextDispatchTime nowT lastT + dur i)
          (nextDispatchTime nowT lastT + dur i) m hm
        have hhead :
            ((drainQueue outcome dur (i + 1)
                  (nextDispatchTime nowT lastT + dur i)
                  (nextDispatchTime nowT lastT + dur i) (r2 :: rs2)).getD 0
                dfltDispatch).time =
              nextDispatchTime (nextDispatchTime nowT lastT + dur i)
                (nextDispatchTime nowT lastT + dur i) := by
          simp [drainQueue]
        have hgap :
            nextDispatchTime nowT lastT + dur i + REQUEST_INTERVAL ≤
              nextDispatchTime (nextDispatchTime nowT lastT + dur i)
                (nextDispatchTime nowT lastT + dur i) :=
          nextDispatchTime_ge_last _ _
        have hstep := ihm
        rw [hhead] at hstep
        simp only [drainQueue, List.getD_cons_succ, List.getD_cons_zero]
        calc
          nextDispatchTime nowT lastT + (m + 1) * REQUEST_INTERVAL =
              nextDispatchTime nowT lastT + REQUEST_INTERVAL +
                m * REQUEST_INTERVAL := by ring
          _ ≤ nextDispatchTime (nextDispatchTime nowT lastT + dur i)
                (nextDispatchTime nowT lastT + dur i) + m * REQUEST_INTERVAL := by
              have := hgap
              omega
          _ ≤ _ := hstep

/-- C3: the request queue is drained strictly FIFO — the dispatches are
exactly the enqueued requests in order, the `n`-th request settles with the
`n`-th completion outcome, the `n`-th dispatch happens no earlier than `n`
full 15-second intervals after the first dispatch, and a `processQueue`
call while a worker loop is already active returns immediately without
dispatching anything, so at most one drain loop is ever active. -/
theorem c3_queue_fifo_paced_single_worker (outcome : Nat → LLMResult)
    (dur : Nat → Nat) (reqs : List QReq) (nowT lastT n : Nat) (s : QState)
    (hn : n < reqs.length) (hbusy : s.isProcessingQueue = true) :
    (drainQueue outcome dur 0 nowT lastT reqs).map Dispatch.req = reqs ∧
      ((drainQueue outcome dur 0 nowT lastT reqs).getD n dfltDispatch).res =
        outcome n ∧
      ((drainQueue outcome dur 0 nowT lastT reqs).getD 0 dfltDispatch).time +
          n * REQUEST_INTERVAL ≤
        ((drainQueue outcome dur 0 nowT lastT reqs).getD n
            dfltDispatch).time ∧
      processQueue outcome dur nowT s = (s, []) := by
  refine ⟨drainQueue_map_req outcome dur reqs 0 nowT lastT, ?_,
    drainQueue_paced outcome dur reqs 0 nowT lastT n hn, ?_⟩
  · simpa using drainQueue_res outcome dur reqs 0 nowT lastT n hn
  · simp [processQueue, hbusy]

/-- Concrete instantiation of the C3 theorem: three queued requests, the
third dispatch at least two intervals after the first, on a busy worker
state. -/
theorem c3_witness :
    (drainQueue (fun _ => .ok "t".data) (fun _ => 100) 0 20000 0
          fixReqs).map Dispatch.req = fixReqs ∧
      ((drainQueue (fun _ => .ok "t".data) (fun _ => 100) 0 20000 0
            fixReqs).getD 2 dfltDispatch).res = .ok "t".data ∧
      ((drainQueue (fun _ => .ok "t".data) (fun _ => 100) 0 20000 0
            fixReqs).getD 0 dfltDispatch).time + 2 * REQUEST_INTERVAL ≤
        ((drainQueue (fun _ => .ok "t".data) (fun _ => 100) 0 20000 0
            fixReqs).getD 2 dfltDispatch).time ∧
      processQueue (fun _ => .ok "t".data) (fun _ => 100) 20000
          ⟨fixReqs, true, 0⟩ =
        (⟨fixReqs, true, 0⟩, []) :=
  c3_queue_fifo_paced_single_worker (fun _ => .ok "t".data) (fun _ => 100)
    fixReqs 20000 0 2 ⟨fixReqs, true, 0⟩ (by decide) (by decide)

/-- One unfolding step of the retry loop. -/
theorem llmLoop_step (att : Nat → LLMAttempt) (attempt fuel : Nat) :
    llmLoop att attempt (fuel + 1) =
      match att attempt with
      | .success c => ⟨.ok (jsOrDefault c noResponseMsg), 1, []⟩
      | .failure msg =>
        if fuel = 0 then ⟨.ok (errAfterMsg msg), 1, []⟩
        else if subOccurs "429".data msg then
          ⟨(llmLoop att (attempt + 1) fuel).result,
            (llmLoop att (attempt + 1) fuel).attemptsMade + 1,
            delayBetweenRetries :: (llmLoop att (attempt + 1) fuel).waits⟩
        else ⟨.thrown msg, 1, []⟩ := rfl

/-- A first-attempt success resolves at once with the completion text or
the placeholder. -/
theorem processWithLLM_success1 (att : Nat → LLMAttempt) (c : Option Str)
    (h : att 1 = .success c) :
    processWithLLM att = ⟨.ok (jsOrDefault c noResponseMsg), 1, []⟩ := by
  show llmLoop att 1 (2 + 1) = _
  rw [llmLoop_step, h]

/-- A first-attempt failure without a rate-limit marker is rethrown at
once. -/
theorem processWithLLM_fail1 (att : Nat → LLMAttempt) (m : Str)
    (h : att 1 = .failure m) (h4 : subOccurs "429".data m = false) :
    processWithLLM att = ⟨.thrown m, 1, []⟩ := by
  show llmLoop att 1 (2 + 1) = _
  rw [llmLoop_step, h]
  simp [h4]

/-- Rate-limited once, then success: two attempts with one backoff wait. -/
theorem processWithLLM_429_success2 (att : Nat → LLMAttempt) (m : Str)
    (c : Option Str) (h1 : att 1 = .failure m)
    (h4 : subOccurs "429".data m = true) (h2 : att 2 = .success c) :
    processWithLLM att = ⟨.ok (jsOrDefault c noResponseMsg), 2, [2000]⟩ := by
  show llmLoop att 1 (2 + 1) = _
  rw [llmLoop_step, h1]
  simp only [h4]
  rw [show llmLoop att (1 + 1) 2 = llmLoop att 2 (1 + 1) from rfl,
    llmLoop_step, h2]
  rfl

/-- Rate-limited once, then a non-rate-limit failure: rethrown on the
second attempt. -/
theorem processWithLLM_429_fail2 (att : Nat → LLMAttempt) (m m2 : Str)
    (h1 : att 1 = .failure m) (h4 : subOccurs "429".data m = true)
    (h2 : att 2 = .failure m2) (h42 : subOccurs "429".data m2 = false) :
    processWithLLM att = ⟨.thrown m2, 2, [2000]⟩ := by
  show llmLoop att 1 (2 + 1) = _
  rw [llmLoop_step, h1]
  simp only [h4]
  rw [show llmLoop att (1 + 1) 2 = llmLoop att 2 (1 + 1) from rfl,
    llmLoop_step, h2]
  simp [h42, delayBetweenRetries]

/-- Rate-limited twice, then success on the final attempt. -/
theorem processWithLLM_429_429_success3 (att : Nat → LLMAttempt) (m m2 : Str)
    (c : Option Str) (h1 : att 1 = .failure m)
    (h4 : subOccurs "429".data m = true) (h2 : att 2 = .failure m2)
    (h42 : subOccurs "429".data m2 = true) (h3 : att 3 = .success c) :
    processWithLLM att =
      ⟨.ok (jsOrDefault c noResponseMsg), 3, [2000, 2000]⟩ := by
  show llmLoop att 1 (2 + 1) = _
  rw [llmLoop_step, h1]
  simp only [h4]
  rw [show llmLoop att (1 + 1) 2 = llmLoop att 2 (1 + 1) from rfl,
    llmLoop_step, h2]
  simp only [h42]
  rw [show llmLoop att (2 + 1) 1 = llmLoop att 3 (0 + 1) from rfl,
    llmLoop_step, h3]
  rfl

/-- Rate-limited twice, then any failure on the final attempt: the run
resolves with an error-message string instead of rethrowing. -/
theorem processWithLLM_429_429_fail3 (att : Nat → LLMAttempt) (m m2 m3 : Str)
    (h1 : att 1 = .failure m) (h4 : subOccurs "429".data m = true)
    (h2 : att 2 = .failure m2) (h42 : subOccurs "429".data m2 = true)
    (h3 : att 3 = .failure m3) :
    processWithLLM att = ⟨.ok (errAfterMsg m3), 3, [2000, 2000]⟩ := by
  show llmLoop att 1 (2 + 1) = _
  rw [llmLoop_step, h1]
  simp only [h4]
  rw [show llmLoop att (1 + 1) 2 = llmLoop att 2 (1 + 1) from rfl,
    llmLoop_step, h2]
  simp only [h42]
  rw [show llmLoop att (2 + 1) 1 = llmLoop att 3 (0 + 1) from rfl,
    llmLoop_step, h3]
  rfl

/-- C4 (amended): a completion call makes at most 3 attempts with a fixed
2-second wait before each retry; it retries only after a failure whose
message carries the rate-limit marker `429`; a non-rate-limit failure on
attempt 1 or 2 is rethrown immediately; on the final attempt, however, any
failure — rate-limited or not — is returned as an error-message success
string instead of propagating. -/
theorem c4_retry_only_on_rate_limit (att : Nat → LLMAttempt) :
    (processWithLLM att).attemptsMade ≤ 3 ∧
      (∀ w ∈ (processWithLLM att).waits, w = 2000) ∧
      (processWithLLM att).waits.length + 1 =
        (processWithLLM att).attemptsMade ∧
      (∀ m, att 1 = .failure m → subOccurs "429".data m = false →
        processWithLLM att = ⟨.thrown m, 1, []⟩) ∧
      (∀ m m2, att 1 = .failure m → subOccurs "429".data m = true →
        att 2 = .failure m2 → subOccurs "429".data m2 = false →
        processWithLLM att = ⟨.thrown m2, 2, [2000]⟩) ∧
      (∀ m m2 m3, att 1 = .failure m → subOccurs "429".data m = true →
        att 2 = .failure m2 → subOccurs "429".data m2 = true →
        att 3 = .failure m3 →
        processWithLLM att = ⟨.ok (errAfterMsg m3), 3, [2000, 2000]⟩) ∧
      (2 ≤ (processWithLLM att).attemptsMade →
        ∃ m, att 1 = .failure m ∧ subOccurs "429".data m = true) ∧
      ((processWithLLM att).attemptsMade = 3 →
        ∃ m, att 2 = .failure m ∧ subOccurs "429".data m = true) := by
  rcases h1 : att 1 with c1 | m1
  · have hrun := processWithLLM_success1 att c1 h1
    refine ⟨?_, ?_, ?_, ?_, ?_, ?_, ?_, ?_⟩
    · simp [hrun]
    · simp [hrun]
    · simp [hrun]
    · intro m hm _; exact LLMAttempt.noConfusion hm
    · intro m m2 hm _ _ _; exact LLMAttempt.noConfusion hm
    · intro m m2 m3 hm _ _ _ _; exact LLMAttempt.noConfusion hm
    · intro hle; rw [hrun] at hle; simp at hle
    · intro heq; rw [hrun] at heq; simp at heq
  · by_cases h4 : subOccurs "429".data m1 = true
    · rcases h2 : att 2 with c2 | m2
      · have hrun := processWithLLM_429_success2 att m1 c2 h1 h4 h2
        refine ⟨?_, ?_, ?_, ?_, ?_, ?_, ?_, ?_⟩
        · simp [hrun]
        · simp [hrun]
        · simp [hrun]
        · intro m hm hf; injection hm with e; subst e
          exact absurd h4 (by simp [hf])
        · intro m m2 _ _ hm2 _; exact LLMAttempt.noConfusion hm2
        · intro m m2 m3 _ _ hm2 _ _; exact LLMAttempt.noConfusion hm2
        · intro _; exact ⟨m1, rfl, h4⟩
        · intro heq; rw [hrun] at heq; simp at heq
      · by_cases h42 : subOccurs "429".data m2 = true
        · rcases h3 : att 3 with c3 | m3
          · have hrun :=
              processWithLLM_429_429_success3 att m1 m2 c3 h1 h4 h2 h42 h3
            refine ⟨?_, ?_, ?_, ?_, ?_, ?_, ?_, ?_⟩
            · simp [hrun]
            · simp [hrun]
            · simp [hrun]
            · intro m hm hf; injection hm with e; subst e
              exact absurd h4 (by simp [hf])
            · intro m m2' _ _ hm2 hf2; injection hm2 with e; subst e
              exact absurd h42 (by simp [hf2])
            · intro m m2' m3 _ _ _ _ hm3; exact LLMAttempt.noConfusion hm3
            · intro _; exact ⟨m1, rfl, h4⟩
            · intro _; exact ⟨m2, rfl, h42⟩
          · have hrun :=
              processWithLLM_429_429_fail3 att m1 m2 m3 h1 h4 h2 h42 h3
            refine ⟨?_, ?_, ?_, ?_, ?_, ?_, ?_, ?_⟩
            · simp [hrun]
            · simp [hrun]
            · simp [hrun]
            · intro m hm hf; injection hm with e; subst e
              exact absurd h4 (by simp [hf])
            · intro m m2' _ _ hm2 hf2; injection hm2 with e; subst e
              exact absurd h42 (by simp [hf2])
            · intro m m2' m3' _ _ _ _ hm3; injection hm3 with e; subst e
              exact hrun
            · intro _; exact ⟨m1, rfl, h4⟩
            · intro _; exact ⟨m2, rfl, h42⟩
        · have h42f : subOccurs "429".data m2 = false := by
            simpa using h42
          have hrun := processWithLLM_429_fail2 att m1 m2 h1 h4 h2 h42f
          refine ⟨?_, ?_, ?_, ?_, ?_, ?_, ?_, ?_⟩
          · simp [hrun]
          · simp [hrun]
          · simp [hrun]
          · intro m hm hf; injection hm with e; subst e
            exact absurd h4 (by simp [hf])
          · intro m m2' _ _ hm2 _; injection hm2 with e; subst e
            exact hrun
          · intro m m2' m3 _ _ hm2 hf2 _; injection hm2 with e; subst e
            exact absurd hf2 (by simp [h42f])
          · intro _; exact ⟨m1, rfl, h4⟩
          · intro heq; rw [hrun] at heq; simp at heq
    · have h4f : subOccurs "429".data m1 = false := by simpa using h4
      have hrun := processWithLLM_fail1 att m1 h1 h4f
      refine ⟨?_, ?_, ?_, ?_, ?_, ?_, ?_, ?_⟩
      · simp [hrun]
      · simp [hrun]
      · simp [hrun]
      · intro m hm _; injection hm with e; subst e; exact hrun
      · intro m m2 hm hf _ _; injection hm with e; subst e
        exact absurd hf (by simp [h4f])
      · intro m m2 m3 hm hf _ _ _; injection hm with e; subst e
        exact absurd hf (by simp [h4f])
      · intro hle; rw [hrun] at hle; simp at hle
      · intro heq; rw [hrun] at heq; simp at heq

/-- C4 counterexample: after two rate-limited attempts, a non-rate-limit
failure on the final attempt is not propagated to the caller — the run
resolves successfully with an error-message string. -/
theorem c4_counterexample_final_attempt :
    (processWithLLM attC4).result = .ok (errAfterMsg "boom".data) ∧
      (processWithLLM attC4).result ≠ .thrown "boom".data := by decide

/-- Concrete instantiation of the amended C4 theorem: an immediate
non-rate-limit failure is rethrown after a single attempt. -/
theorem c4_witness :
    processWithLLM attBoom = ⟨.thrown "boom".data, 1, []⟩ :=
  (c4_retry_only_on_rate_limit attBoom).2.2.2.1 "boom".data rfl (by decide)

/-- C9 (amended): a completion response that arrives successfully resolves
`processWithLLM` with the generated text, where a missing or empty text is
replaced by the successful placeholder `No response from LLM` — it is not
surfaced as a failure. -/
theorem c9_empty_response_yields_placeholder (att : Nat → LLMAttempt)
    (c : Option Str) (h : att 1 = .success c) :
    (processWithLLM att).result = .ok (jsOrDefault c noResponseMsg) ∧
      ((c = none ∨ c = some []) →
        (processWithLLM att).result = .ok noResponseMsg) := by
  have hrun := processWithLLM_success1 att c h
  refine ⟨by rw [hrun], ?_⟩
  rintro (rfl | rfl) <;> rw [hrun] <;> rfl

/-- C9 counterexample: a successful service response with no generated text
is surfaced as the successful placeholder text, not as a failure. -/
theorem c9_counterexample_empty_is_success :
    (processWithLLM (fun _ => LLMAttempt.success none)).result =
      .ok noResponseMsg := by decide

/-- Concrete instantiation of the amended C9 theorem. -/
theorem c9_witness :
    ((processWithLLM (fun _ => LLMAttempt.success none)).result =
        .ok (jsOrDefault none noResponseMsg)) ∧
      (processWithLLM (fun _ => LLMAttempt.success none)).result =
        .ok noResponseMsg :=
  ⟨(c9_empty_response_yields_placeholder _ none rfl).1,
    (c9_empty_response_yields_placeholder _ none rfl).2 (Or.inl rfl)⟩

/-- When the pattern does not occur in the string, fuelled replacement is
the identity, for any fuel. -/
theorem replaceAllF_of_not_occurs (pat rep : Str) :
    ∀ (fuel : Nat) (s : Str), subOccurs pat s = false →
      replaceAllF pat rep fuel s = s := by
  intro fuel
  induction fuel with
  | zero => intro s _; cases s <;> rfl
  | succ f ih =>
    intro s h
    cases s with
    | nil => rfl
    | cons c tl =>
      rw [subOccurs, Bool.or_eq_false_iff] at h
      obtain ⟨hp, ht⟩ := h
      rw [replaceAllF, if_neg (by simp [hp])]
      rw [ih tl ht]

/-- When the pattern does not occur in the string, replacement is the
identity. -/
theorem replaceAll_of_not_occurs (pat rep s : Str)
    (h : subOccurs pat s = false) : replaceAll pat rep s = s :=
  replaceAllF_of_not_occurs pat rep s.length s h

/-- A list is a prefix of itself extended on the right. -/
theorem isPrefixOf_append_self (a b : Str) : a.isPrefixOf (a ++ b) = true := by
  rw [List.isPrefixOf_iff_prefix]
  exact List.prefix_append a b

/-- The result of `ensureMd` always ends in `.md` up to letter case. -/
theorem endsWithMd_ensureMd (s : Str) : endsWithMd (ensureMd s) = true := by
  unfold ensureMd
  split
  · assumption
  · unfold endsWithMd toLowerStr
    rw [List.map_append, List.isSuffixOf_iff_suffix]
    have hmd : ".md".data.map Char.toLower = ".md".data := by decide
    rw [hmd]
    exact List.suffix_append _ _

/-- C8 (amended): `getOutputFileName` always returns a name whose
lower-cased form ends in `.md`; and whenever the template renders
independently of the original name — `{{filename}}` does not occur in the
template and `{{extension}}` does not occur after the date and time
substitutions — re-applying the function to its own result with the same
clock yields the same name. -/
theorem c8_extension_and_restricted_idempotence
    (dateStr timeStr orig tpl : Str)
    (h1 : subOccurs tokFilename tpl = false)
    (h2 : subOccurs tokExtension
        (replaceAll tokTime timeStr (replaceAll tokDate dateStr tpl)) =
      false) :
    endsWithMd (getOutputFileName dateStr timeStr orig tpl) = true ∧
      getOutputFileName dateStr timeStr
          (getOutputFileName dateStr timeStr orig tpl) tpl =
        getOutputFileName dateStr timeStr orig tpl := by
  have hkey : ∀ x : Str,
      getOutputFileName dateStr timeStr x tpl =
        ensureMd (replaceAll tokTime timeStr (replaceAll tokDate dateStr tpl)) := by
    intro x
    show ensureMd (replaceAll tokExtension (lastExt x)
        (replaceAll tokTime timeStr
          (replaceAll tokDate dateStr
            (replaceAll tokFilename (stripExt x) tpl)))) = _
    rw [replaceAll_of_not_occurs _ _ _ h1, replaceAll_of_not_occurs _ _ _ h2]
  exact ⟨by rw [hkey]; exact endsWithMd_ensureMd _, by rw [hkey, hkey]⟩

/-- C8 counterexample: with the template made of `{{filename}}` followed by
`-out`, re-applying the function to its own result yields a different name,
refuting idempotence; and for a template ending in upper-case `.MD` the
returned name does not literally end in `.md` (only case-insensitively). -/
theorem c8_counterexample_not_idempotent :
    (getOutputFileName "2024-01-01".data "12-00-00".data
          (getOutputFileName "2024-01-01".data "12-00-00".data
            "note.txt".data (tokFilename ++ "-out".data))
          (tokFilename ++ "-out".data) ≠
        getOutputFileName "2024-01-01".data "12-00-00".data "note.txt".data
          (tokFilename ++ "-out".data)) ∧
      ".md".data.isSuffixOf
          (getOutputFileName "2024-01-01".data "12-00-00".data "x.txt".data
            "out.MD".data) =
        false := by decide

/-- Concrete instantiation of the amended C8 theorem on a date-only
template. -/
theorem c8_witness :
    endsWithMd
        (getOutputFileName "2024-01-01".data "12-00-00".data
          "note.txt".data (tokDate ++ "-notes".data)) = true ∧
      getOutputFileName "2024-01-01".data "12-00-00".data
          (getOutputFileName "2024-01-01".data "12-00-00".data
            "note.txt".data (tokDate ++ "-notes".data))
          (tokDate ++ "-notes".data) =
        getOutputFileName "2024-01-01".data "12-00-00".data "note.txt".data
          (tokDate ++ "-notes".data) :=
  c8_extension_and_restricted_idempotence "2024-01-01".data "12-00-00".data
    "note.txt".data (tokDate ++ "-notes".data) (by decide) (by decide)

/-- Decimal digit characters decode to their value. -/
theorem digitVal_digitChar (d : Nat) (h : d < 10) :
    digitVal (digitChar d) = d := by
  interval_cases d <;> decide

/-- The fuelled decimal rendering is decoded by `strVal` when the fuel
dominates the number. -/
theorem natToStrF_val : ∀ (fuel n : Nat), n < fuel →
    strVal (natToStrF fuel n) = n := by
  intro fuel
  induction fuel with
  | zero => intro n h; omega
  | succ f ih =>
    intro n h
    by_cases h10 : n < 10
    · rw [natToStrF, if_pos h10]
      show strVal [digitChar n] = n
      unfold strVal
      simp [digitVal_digitChar n h10]
    · rw [natToStrF, if_neg h10]
      unfold strVal
      rw [List.foldl_append]
      have hdiv : n / 10 < f := by omega
      have hv := ih (n / 10) hdiv
      unfold strVal at hv
      simp only [List.foldl_cons, List.foldl_nil, hv]
      rw [digitVal_digitChar (n % 10) (by omega)]
      omega

/-- Decimal rendering is injective. -/
theorem natToStr_inj (a b : Nat) (h : natToStr a = natToStr b) : a = b := by
  have ha := natToStrF_val (a + 1) a (Nat.lt_succ_self a)
  have hb := natToStrF_val (b + 1) b (Nat.lt_succ_self b)
  calc a = strVal (natToStr a) := ha.symm
    _ = strVal (natToStr b) := by rw [h]
    _ = b := hb

/-- The numbered candidate names are injective in the counter. -/
theorem mkIndexedName_inj (base : Str) (i j : Nat)
    (h : mkIndexedName base i = mkIndexedName base j) : i = j := by
  unfold mkIndexedName at h
  exact natToStr_inj i j (List.append_cancel_left h)

/-- A path with an occupied vault entry is among the vault's paths. -/
theorem vaultGet_isSome_mem (v : Vault) (p : Str)
    (h : (vaultGet v p).isSome = true) : p ∈ v.map FileRec.path := by
  unfold vaultGet at h
  cases hf : v.find? (fun f => f.path == p) with
  | none => rw [hf] at h; simp at h
  | some r =>
    have hmem := List.mem_of_find?_eq_some hf
    have hpred := List.find?_some hf
    simp only [beq_iff_eq] at hpred
    exact List.mem_map.mpr ⟨r, hmem, hpred⟩

/-- Among the first `v.length + 1` numbered candidates at least one is
free: the candidates are pairwise distinct and the vault holds only
`v.length` paths. -/
theorem exists_free_index (v : Vault) (base : Str) :
    ∃ k, 1 ≤ k ∧ k ≤ v.length + 1 ∧
      vaultGet v (mkIndexedName base k) = none := by
  by_contra hcon
  push_neg at hcon
  have hsub : ((List.range (v.length + 1)).map
      (fun j => mkIndexedName base (j + 1))) ⊆ v.map FileRec.path := by
    intro x hx
    rw [List.mem_map] at hx
    obtain ⟨j, hj, rfl⟩ := hx
    rw [List.mem_range] at hj
    apply vaultGet_isSome_mem
    have hne := hcon (j + 1) (by omega) (by omega)
    cases hget : vaultGet v (mkIndexedName base (j + 1)) with
    | none => exact absurd hget hne
    | some _ => rfl
  have hinj : Function.Injective (fun j => mkIndexedName base (j + 1)) := by
    intro a b hab
    have := mkIndexedName_inj base (a + 1) (b + 1) hab
    omega
  have hnd := List.Nodup.map hinj (List.nodup_range (v.length + 1))
  have hle := (List.subperm_of_subset hnd hsub).length_le
  simp at hle

/-- One unfolding step of the rename loop. -/
theorem renameLoop_succ (v : Vault) (base : Str) (counter fuel : Nat)
    (cur : Str) :
    renameLoop v base counter (fuel + 1) cur =
      if (vaultGet v cur).isSome then
        renameLoop v base (counter + 1) fuel (mkIndexedName base counter)
      else cur := rfl

/-- Correctness of the rename loop from an arbitrary counter position: as
soon as some candidate at or beyond the current one is free within the
fuel, the loop stops at the first free candidate, every earlier candidate
from the current position on being occupied. -/
theorem renameLoop_spec (v : Vault) (base : Str) :
    ∀ (fuel k : Nat),
      (∃ d, d < fuel ∧ vaultGet v (mkIndexedName base (k + d)) = none) →
      ∃ j, k ≤ j ∧ vaultGet v (mkIndexedName base j) = none ∧
        (∀ i, k ≤ i → i < j →
          (vaultGet v (mkIndexedName base i)).isSome = true) ∧
        renameLoop v base (k + 1) fuel (mkIndexedName base k) =
          mkIndexedName base j := by
  intro fuel
  induction fuel with
  | zero =>
    intro k hex
    obtain ⟨d, hd, _⟩ := hex
    omega
  | succ f ih =>
    intro k hex
    by_cases hk : (vaultGet v (mkIndexedName base k)).isSome = true
    · obtain ⟨d, hd, hfree⟩ := hex
      have hd0 : d ≠ 0 := by
        intro h0
        subst h0
        rw [Nat.add_zero] at hfree
        rw [hfree] at hk
        simp at hk
      obtain ⟨d', rfl⟩ : ∃ d', d = d' + 1 := ⟨d - 1, by omega⟩
      have hex' : ∃ e, e < f ∧
          vaultGet v (mkIndexedName base (k + 1 + e)) = none :=
        ⟨d', by omega, by
          rw [show k + 1 + d' = k + (d' + 1) by omega]
          exact hfree⟩
      obtain ⟨j, hkj, hjfree, hmin, heq⟩ := ih (k + 1) hex'
      refine ⟨j, by omega, hjfree, ?_, ?_⟩
      · intro i hki hij
        by_cases hik : i = k
        · subst hik; exact hk
        · exact hmin i (by omega) hij
      · rw [renameLoop_succ, if_pos hk]
        exact heq
    · refine ⟨k, Nat.le_refl k, ?_, ?_, ?_⟩
      · cases hget : vaultGet v (mkIndexedName base k) with
        | none => rfl
        | some c => rw [hget] at hk; simp at hk
      · intro i h1 h2; omega
      · rw [renameLoop_succ, if_neg hk]

/-- Creating a fresh file leaves every occupied path's content unchanged. -/
theorem vaultGet_create_preserves (v : Vault) (q c' : Str) (t : Nat)
    (p : Str) (h : vaultGet v p ≠ none) :
    vaultGet (vaultCreate v q c' t) p = vaultGet v p := by
  unfold vaultGet vaultCreate at *
  rw [List.find?_append]
  cases hf : v.find? (fun f => f.path == p) with
  | none => rw [hf] at h; simp at h
  | some r => rfl

/-- Creating a file at a free path makes its content readable there. -/
theorem vaultGet_create_self (v : Vault) (q c' : Str) (t : Nat)
    (h : vaultGet v q = none) :
    vaultGet (vaultCreate v q c' t) q = some c' := by
  unfold vaultGet vaultCreate at *
  rw [List.find?_append]
  cases hf : v.find? (fun f => f.path == q) with
  | some r => rw [hf] at h; simp at h
  | none => simp [List.find?]

/-- C7: with `rename` output handling and an occupied rendered output
path, `saveProcessedContent` returns the candidate with the lowest unused
positive suffix, creates the new file there, and leaves the content of
every pre-existing file untouched. -/
theorem c7_rename_picks_lowest_free_suffix (o : Oracle) (clk : Clock)
    (rule : Rule) (v : Vault) (fileName content : Str)
    (hmode : rule.outputFileHandling = .rename)
    (hex : (vaultGet v (renderedOutName clk rule fileName)).isSome = true)
    (hok : o.saveOk = true) :
    ∃ k, 1 ≤ k ∧
      (saveProcessedContent o clk rule v fileName content).1 =
        some (mkIndexedName (renderedOutName clk rule fileName) k) ∧
      vaultGet v (mkIndexedName (renderedOutName clk rule fileName) k) =
        none ∧
      (∀ j, 1 ≤ j → j < k →
        (vaultGet v
            (mkIndexedName (renderedOutName clk rule fileName) j)).isSome =
          true) ∧
      (∀ p, vaultGet v p ≠ none →
        vaultGet (saveProcessedContent o clk rule v fileName content).2.1
            p =
          vaultGet v p) ∧
      vaultGet (saveProcessedContent o clk rule v fileName content).2.1
          (mkIndexedName (renderedOutName clk rule fileName) k) =
        some content := by
  obtain ⟨k0, hk01, hk0le, hk0free⟩ :=
    exists_free_index v (renderedOutName clk rule fileName)
  have hexd : ∃ d, d < v.length + 1 ∧
      vaultGet v
        (mkIndexedName (renderedOutName clk rule fileName) (1 + d)) = none :=
    ⟨k0 - 1, by omega, by
      rw [show 1 + (k0 - 1) = k0 by omega]
      exact hk0free⟩
  obtain ⟨j, h1j, hjfree, hmin, heq⟩ :=
    renameLoop_spec v (renderedOutName clk rule fileName) (v.length + 1) 1
      hexd
  obtain ⟨ex, hexeq⟩ := Option.isSome_iff_exists.mp hex
  have hsave : saveProcessedContent o clk rule v fileName content =
      (some (mkIndexedName (renderedOutName clk rule fileName) j),
        vaultCreate v (mkIndexedName (renderedOutName clk rule fileName) j)
          content clk.now,
        [Eff.createF (mkIndexedName (renderedOutName clk rule fileName) j)
          content]) := by
    simp only [saveProcessedContent]
    rw [hexeq, hmode]
    have hloop :
        renameLoop v (renderedOutName clk rule fileName) 1 (v.length + 2)
            (renderedOutName clk rule fileName) =
          mkIndexedName (renderedOutName clk rule fileName) j := by
      rw [show v.length + 2 = v.length + 1 + 1 from rfl, renameLoop_succ,
        if_pos hex]
      exact heq
    simp [hloop, hok]
  refine ⟨j, h1j, ?_, hjfree, fun i hi1 hij => hmin i hi1 hij, ?_, ?_⟩
  · rw [hsave]
  · intro p hp
    rw [hsave]
    exact vaultGet_create_preserves v _ content clk.now p hp
  · rw [hsave]
    exact vaultGet_create_self v _ content clk.now hjfree

/-- Concrete instantiation of the C7 theorem: with `out.md` and `out.md_1`
both taken, the run creates `out.md_2`. -/
theorem c7_witness :
    ∃ k, 1 ≤ k ∧
      (saveProcessedContent (Oracle.allOk "HELLO".data) fixClk c7Rule
          c7Vault "a.md".data "HELLO".data).1 =
        some (mkIndexedName (renderedOutName fixClk c7Rule "a.md".data) k) ∧
      vaultGet c7Vault
          (mkIndexedName (renderedOutName fixClk c7Rule "a.md".data) k) =
        none ∧
      (∀ j, 1 ≤ j → j < k →
        (vaultGet c7Vault
            (mkIndexedName (renderedOutName fixClk c7Rule "a.md".data)
              j)).isSome =
          true) ∧
      (∀ p, vaultGet c7Vault p ≠ none →
        vaultGet
            (saveProcessedContent (Oracle.allOk "HELLO".data) fixClk c7Rule
                c7Vault "a.md".data "HELLO".data).2.1 p =
          vaultGet c7Vault p) ∧
      vaultGet
          (saveProcessedContent (Oracle.allOk "HELLO".data) fixClk c7Rule
              c7Vault "a.md".data "HELLO".data).2.1
          (mkIndexedName (renderedOutName fixClk c7Rule "a.md".data) k) =
        some "HELLO".data :=
  c7_rename_picks_lowest_free_suffix (Oracle.allOk "HELLO".data) fixClk
    c7Rule c7Vault "a.md".data "HELLO".data (by decide) (by decide)
    (by decide)

/-- C5: on a successful run with `deleteSourceFile` enabled, the source
file is deleted and a `process` entry is logged, but no `delete` entry is
ever appended: the source's `logOperation('delete', ...)` call passes no
output file name, and `logOperation` appends nothing in that case.  The log
after the run contains no occurrence of `delete` at all. -/
theorem c5_delete_entry_never_logged :
    logOperation fixClk fixRule "delete".data "watch/a.md".data none =
        none ∧
      vaultGet
          (processFile (Oracle.allOk "HELLO".data) fixClk fixRule
              "watch/a.md".data fixState).state.vault "watch/a.md".data =
        none ∧
      (processFile (Oracle.allOk "HELLO".data) fixClk fixRule
            "watch/a.md".data fixState).state.log =
        logEntry "01/01/2024, 12:00:00".data "process".data
          "watch/a.md".data "out.md".data "r".data "out".data "p".data ∧
      subOccurs "delete".data
          (processFile (Oracle.allOk "HELLO".data) fixClk fixRule
              "watch/a.md".data fixState).state.log =
        false := by decide

/-- C6: the folder poller invokes the pipeline for every template match
regardless of modification time: here the file was last modified at time
100 and last processed at time 200, yet `checkFolder` still sends its
content to the completion service and writes the output file —
`lastProcessedTimes` is never consulted. -/
theorem c6_poller_ignores_last_processed :
    c6State.vault = [⟨"watch/a.md".data, "hello".data, 100⟩] ∧
      lpGet c6State.lastProcessed "watch/a.md".data = some 200 ∧
      Eff.llmCall "hello".data "p".data ∈
        (checkFolder (Oracle.allOk "HELLO".data) fixClk fixRule
            "watch/".data c6State).2 ∧
      vaultGet
          (checkFolder (Oracle.allOk "HELLO".data) fixClk fixRule
              "watch/".data c6State).1.vault "out.md".data =
        some "HELLO".data := by decide

/-- C10 (amended): an invocation of `processFile` for a path already in
flight returns immediately with the state unchanged, performing no effect
other than the content-regex pre-filter read, which the source executes
before the in-flight check whenever the rule's content regex is
non-blank. -/
theorem c10_skip_is_noop_except_preread (o : Oracle) (clk : Clock)
    (rule : Rule) (path : Str) (s : PState) (hin : path ∈ s.processing)
    (hmatch :
      matchesFileNameTemplate (baseName path) rule.fileNameTemplate = true)
    (hpre : (strTrim rule.contentRegex).isEmpty = false →
      o.preReadOk = true ∧
        subOccurs rule.contentRegex (vaultRead s.vault path) = true) :
    processFile o clk rule path s =
      ⟨.ok, s,
        if (strTrim rule.contentRegex).isEmpty then []
        else [Eff.readF path]⟩ := by
  have hc : s.processing.contains path = true := by simpa using hin
  by_cases hre : (strTrim rule.contentRegex).isEmpty
  · simp [processFile, hmatch, hre, hc, hin]
  · obtain ⟨hp, hs⟩ := hpre (by simpa using hre)
    simp [processFile, hmatch, hre, hp, hs, hc, hin]

/-- C10 counterexample: with a second rule carrying a content regex, the
skipped invocation for an in-flight file is not effect-free — it still
reads the file once (the pre-filter read), refuting the claim that no read
is performed. -/
theorem c10_counterexample_read_occurs :
    (processFile (Oracle.allOk "H".data) fixClk c10Rule "watch/a.md".data
          c10State).effects =
        [Eff.readF "watch/a.md".data] ∧
      (processFile (Oracle.allOk "H".data) fixClk c10Rule "watch/a.md".data
          c10State).state =
        c10State := by decide

/-- Concrete instantiation of the amended C10 theorem. -/
theorem c10_witness :
    "watch/a.md".data ∈ c10State.processing ∧
      processFile (Oracle.allOk "H".data) fixClk c10Rule "watch/a.md".data
          c10State =
        ⟨.ok, c10State,
          if (strTrim c10Rule.contentRegex).isEmpty then []
          else [Eff.readF "watch/a.md".data]⟩ :=
  ⟨by decide,
    c10_skip_is_noop_except_preread _ _ _ _ _ (by decide) (by decide)
      (fun _ => by decide)⟩

example : matchesFileNameTemplate "note.md".data "*.md".data = true := by decide

example : matchesFileNameTemplate "notemd".data "*.md".data = true := by decide

example : globMatch "*.md".data "notemd".data = false := by decide

example :
    getOutputFileName "2024-01-01".data "12-00-00".data "test.md".data
      (tokFilename ++ "_processed.".data ++ tokExtension) =
      "test_processed.md".data := by decide

end Theorems

end ERouter
